import Mathlib

/-!
Verification of the `pdf2latex.py` batch page-processing pipeline.

This file gives a shallow embedding of the program `src/pdf2latex.py`:

* pure string manipulation (`combine_latex_pages`, the error-comment
  synthesis of `translate_and_convert_to_latex_with_claude_vision`,
  `os.path.splitext`-based batch file naming) is translated to Lean
  functions on `String`;
* Python-specific primitives used by the source (`list` slicing with
  negative bounds, `enumerate`, `range`, truthiness-based `or`, floor
  division `//`) are embedded as `pySlice`, `pyEnumerate`, `pyIntRange`,
  `pyOr` and `Int.fdiv`;
* the remote model call is abstracted as an oracle
  `api : Int → Except String String` mapping the page image to either the
  returned LaTeX fragment or the message of the raised exception (a page's
  raster image is represented by its 0-based page index, since the only
  use the pipeline makes of an image is sending it to the oracle);
* the effectful `main` (from the point where the images have been
  extracted) becomes the pure function `run`, which returns both the
  outputs (fragment list, intermediate batch files, final file) and a
  trace of observable events: the per-page remote calls and the
  `time.sleep(1)` pauses, in program order;
* `extract_pages_as_images` is embedded with the document-open step and
  the per-page rasterisation abstracted as `Except`-valued oracles, keeping
  the source's behaviour of discarding all partial progress and returning
  the empty list whenever any exception is raised.

Machine integers of the source are Python's unbounded `int`, so they are
embedded as `Int` (command-line values) and `Nat` (list positions).
-/

/-- Observable events of one pipeline run: a remote transcription request
(carrying the page image and the 0-based page number passed to the
transcription function) or one `time.sleep(1)` pause. -/
inductive PipeEvent where
  | call (image : Int) (page : Int)
  | sleep
deriving DecidableEq, Repr

/-- The distinct `sys.exit(1)` sites of `main` that are reachable after
image extraction: empty render result (line 173), start-page range check
(line 180), end-page range check (line 184). -/
inductive ExitError where
  | renderFailed
  | startPageOutOfRange
  | endPageOutOfRange
deriving DecidableEq, Repr

/-- Python's `sep.join(l)`. -/
def pyJoin (sep : String) : List String → String
  | [] => ""
  | [x] => x
  | x :: y :: xs => x ++ sep ++ pyJoin sep (y :: xs)

/-- Embedding of `combine_latex_pages` (pdf2latex.py lines 113-145):
fixed preamble, pages joined by the page-separator comment, fixed
postamble. -/
def combine_latex_pages (latex_pages : List String) : String :=
  let preamble := "\n\\documentclass{amsart}\n\\usepackage[utf8]{inputenc}\n\\usepackage[T1]{fontenc}\n\\usepackage{graphicx}\n\\usepackage{amsmath}\n\\usepackage{amssymb}\n\\usepackage{hyperref}\n\\usepackage{natbib}\n\\usepackage{booktabs}\n\\usepackage{float}\n\\usepackage{array}\n\\usepackage{multirow}\n\\usepackage{longtable}\n\\usepackage{mathrsfs}\n\n\n\\begin{document}\n\n\\maketitle\n"
  let content := pyJoin "\n\n% ===== NEW PAGE =====\n\n" latex_pages
  let postamble := "\n\n\\end{document}"
  preamble ++ content ++ postamble

/-- Embedding of `translate_and_convert_to_latex_with_claude_vision`
(pdf2latex.py lines 59-111).  The whole `try` block (image encoding plus
the remote call returning `response.content[0].text`) is the oracle
`api`; any exception `e` is caught and turned into the literal fragment
`f"% Error processing page {page_num+1}\n% {str(e)}\n\n"`. -/
def translate_and_convert_to_latex_with_claude_vision
    (api : Int → Except String String) (image : Int) (page_num : Int) : String :=
  match api image with
  | .ok text => text
  | .error e => "% Error processing page " ++ toString (page_num + 1) ++ "\n% " ++ e ++ "\n\n"

/-- Normalisation of one bound of a Python slice `l[a:b]` for a list of
length `n`: negative bounds count from the end, then both are clamped to
`[0, n]`. -/
def pySliceIdx (n : Nat) (i : Int) : Nat :=
  if i < 0 then (i + n).toNat else min i.toNat n

/-- Python's `l[a:b]` (step 1). -/
def pySlice (l : List α) (a b : Int) : List α :=
  (l.take (pySliceIdx l.length b)).drop (pySliceIdx l.length a)

/-- Python's `enumerate`, with explicit starting counter. -/
def pyEnumerate (k : Nat) : List α → List (Nat × α)
  | [] => []
  | x :: xs => (k, x) :: pyEnumerate (k + 1) xs

/-- Python's `range(n)` for a possibly negative `n` (empty when `n ≤ 0`). -/
def pyIntRange (n : Int) : List Int :=
  (List.range n.toNat).map (fun (i : Nat) => (i : Int))

/-- Python's truthiness-based `x or d` for `x : Optional[int]`: both
`None` and `0` are falsy and yield the default. -/
def pyOr (x? : Option Int) (d : Int) : Int :=
  match x? with
  | none => d
  | some x => if x = 0 then d else x

/-- Index of the last occurrence of `c`, if any (`str.rfind` on a char). -/
def lastIndexOf (c : Char) : List Char → Option Nat
  | [] => none
  | x :: xs =>
    match lastIndexOf c xs with
    | some i => some (i + 1)
    | none => if x = c then some 0 else none

/-- Python's `str.rfind` for a single character (`-1` when absent). -/
def pyRFind (c : Char) (cs : List Char) : Int :=
  match lastIndexOf c cs with
  | some i => (i : Int)
  | none => -1

/-- Root part of `os.path.splitext(p)` (posix): split at the last dot,
unless it lies in the leading all-dots run of the basename. -/
def splitextRoot (p : String) : String :=
  let cs := p.data
  let sepIndex := pyRFind '/' cs
  let dotIndex := pyRFind '.' cs
  if sepIndex < dotIndex then
    let fnameStart := (sepIndex + 1).toNat
    if ((cs.take dotIndex.toNat).drop fnameStart).any (fun c => c ≠ '.') then
      String.mk (cs.take dotIndex.toNat)
    else p
  else p

/-- Name of the intermediate file written for 0-based batch index `i`
(pdf2latex.py line 219): `f"{os.path.splitext(output)[0]}_batch{i+1}.tex"`. -/
def batch_output_name (output : String) (batch_idx : Nat) : String :=
  splitextRoot output ++ "_batch" ++ toString (batch_idx + 1) ++ ".tex"

/-- Body of the rendering loop of `extract_pages_as_images` (lines 41-45):
rasterise the pages in order; the first raised exception aborts the whole
loop.  A successfully rasterised page is represented by its index. -/
def render_pages (raster : Nat → Except String Unit) : List Nat → Except String (List Int)
  | [] => .ok []
  | k :: ks =>
    match raster k with
    | .error e => .error e
    | .ok _ =>
      match render_pages raster ks with
      | .error e => .error e
      | .ok rest => .ok ((k : Int) :: rest)

/-- Embedding of `extract_pages_as_images` (pdf2latex.py lines 35-49).
`doc?` is the outcome of `fitz.open` (page count on success), `raster`
the outcome of rasterising one page.  Any exception is caught and the
empty list is returned, discarding all partially rendered pages. -/
def extract_pages_as_images (doc? : Except String Nat)
    (raster : Nat → Except String Unit) : List Int :=
  match doc? with
  | .error _ => []
  | .ok n =>
    match render_pages raster (List.range n) with
    | .ok imgs => imgs
    | .error _ => []

/-- Data produced by a successful pipeline run. -/
structure RunOutput where
  /-- The value of `num_batches` (line 192). -/
  numBatches : Int
  /-- The successive values of `batch_images` (line 199). -/
  batches : List (List Int)
  /-- The final value of `all_latex_pages` (lines 194, 215). -/
  all_latex_pages : List String
  /-- The intermediate files written at line 221: name and content. -/
  batchFiles : List (String × String)
  /-- The final output file written at line 229: name and content. -/
  finalFile : String × String
deriving DecidableEq, Repr

/-- Result of a pipeline run: event trace plus either the outputs or the
`sys.exit(1)` site reached. -/
structure RunResult where
  events : List PipeEvent
  result : Except ExitError RunOutput
deriving Repr

/-- Body of one iteration of the batch loop (pdf2latex.py lines 196-213):
slice out the batch's images, call the transcription function on each with
its `actual_page` index, sleeping once after every page.  Returns the
batch's `batch_images`, its `latex_pages`, and its event trace. -/
def run_batch (api : Int → Except String String) (start_page : Int)
    (selected_images : List Int) (batch_size : Int) (batch_idx : Int) :
    List Int × List String × List PipeEvent :=
  let batch_start := batch_idx * batch_size
  let batch_end := min ((batch_idx + 1) * batch_size) (selected_images.length : Int)
  let batch_images := pySlice selected_images batch_start batch_end
  let processed := (pyEnumerate 0 batch_images).map (fun p =>
    let actual_page := start_page + batch_start + p.1
    (translate_and_convert_to_latex_with_claude_vision api p.2 actual_page,
     [PipeEvent.call p.2 actual_page, PipeEvent.sleep]))
  (batch_images, processed.map Prod.fst, (processed.map Prod.snd).flatten)

/-- Embedding of `main` (pdf2latex.py lines 171-232), from the point
where `images` has been computed.  `api` is the remote transcription
oracle; `output` the resolved output path; the remaining arguments are
the parsed command-line options (`--end-page` and `--batch-size` default
to `None`). -/
def run (images : List Int) (api : Int → Except String String) (output : String)
    (start_page : Int) (end_page? : Option Int) (batch_size? : Option Int) : RunResult :=
  if images.isEmpty then ⟨[], .error .renderFailed⟩ else
  let n : Int := images.length
  let end_page : Int := match end_page? with | some e => e | none => n - 1
  if start_page < 0 ∨ n ≤ start_page then ⟨[], .error .startPageOutOfRange⟩ else
  if end_page < start_page ∨ n ≤ end_page then ⟨[], .error .endPageOutOfRange⟩ else
  let selected_images := pySlice images start_page (end_page + 1)
  let batch_size := pyOr batch_size? selected_images.length
  let num_batches := (selected_images.length + batch_size - 1).fdiv batch_size
  let batchData := (pyIntRange num_batches).map
    (run_batch api start_page selected_images batch_size)
  let all_latex_pages := (batchData.map (fun b => b.2.1)).flatten
  let events := (batchData.map (fun b => b.2.2)).flatten
  let batchFiles :=
    if 1 < num_batches then
      (pyEnumerate 0 batchData).map (fun p =>
        (batch_output_name output p.1, combine_latex_pages p.2.2.1))
    else []
  ⟨events, .ok ⟨num_batches, batchData.map (fun b => b.1), all_latex_pages, batchFiles,
    (output, combine_latex_pages all_latex_pages)⟩⟩

/-- The arithmetic progression `[base, base+1, ..., base+len-1]`: the
canonical image list of an `len`-page document is `canonSeg 0 len`, and
the pages selected by a valid range `[s,e]` are `canonSeg s (e+1-s)`. -/
def canonSeg (base : Int) : Nat → List Int
  | 0 => []
  | len + 1 => base :: canonSeg (base + 1) len

/-- The fixed document preamble, as the spec describes it. -/
def specPreamble : String :=
  "\n\\documentclass{amsart}\n\\usepackage[utf8]{inputenc}\n\\usepackage[T1]{fontenc}\n\\usepackage{graphicx}\n\\usepackage{amsmath}\n\\usepackage{amssymb}\n\\usepackage{hyperref}\n\\usepackage{natbib}\n\\usepackage{booktabs}\n\\usepackage{float}\n\\usepackage{array}\n\\usepackage{multirow}\n\\usepackage{longtable}\n\\usepackage{mathrsfs}\n\n\n\\begin{document}\n\n\\maketitle\n"

/-- The literal page-separator comment placed between fragments. -/
def specPageSeparator : String := "\n\n% ===== NEW PAGE =====\n\n"

/-- The fixed document postamble. -/
def specPostamble : String := "\n\n\\end{document}"

/-- A trace in which every remote call is immediately followed by a
sleep: the trace is a concatenation of `[call, sleep]` blocks. -/
def EventsPaired (l : List PipeEvent) : Prop :=
  ∃ ps : List (Int × Int),
    l = (ps.map (fun q => [PipeEvent.call q.1 q.2, PipeEvent.sleep])).flatten

/-! ### Properties of arithmetic-progression lists -/

theorem canonSeg_length (b : Int) : ∀ m : Nat, (canonSeg b m).length = m := by
  intro m
  induction m generalizing b with
  | zero => rfl
  | succ k ih => simp [canonSeg, ih]

theorem canonSeg_append (x : Nat) : ∀ (y : Nat) (b : Int),
    canonSeg b (x + y) = canonSeg b x ++ canonSeg (b + x) y := by
  induction x with
  | zero => intro y b; simp [canonSeg]
  | succ k ih =>
    intro y b
    have harith : k + 1 + y = (k + y) + 1 := by omega
    rw [harith]
    show b :: canonSeg (b + 1) (k + y) = (b :: canonSeg (b + 1) k) ++ canonSeg (b + ↑(k + 1)) y
    rw [List.cons_append, ih y (b + 1)]
    have : b + 1 + (k : Int) = b + ((k : Nat) + 1 : Nat) := by push_cast; ring
    rw [this]

theorem canonSeg_take (b : Int) : ∀ (m k : Nat), (canonSeg b m).take k = canonSeg b (min k m) := by
  intro m
  induction m generalizing b with
  | zero => intro k; simp [canonSeg]
  | succ j ih =>
    intro k
    cases k with
    | zero => simp [canonSeg]
    | succ i =>
      show b :: (canonSeg (b + 1) j).take i = canonSeg b (min (i + 1) (j + 1))
      rw [ih (b + 1) i]
      have : min (i + 1) (j + 1) = min i j + 1 := by omega
      rw [this]
      rfl

theorem canonSeg_drop (b : Int) : ∀ (m k : Nat), (canonSeg b m).drop k = canonSeg (b + k) (m - k) := by
  intro m
  induction m generalizing b with
  | zero => intro k; simp [canonSeg]
  | succ j ih =>
    intro k
    cases k with
    | zero => simp [canonSeg]
    | succ i =>
      show (canonSeg (b + 1) j).drop i = canonSeg (b + ((i : Nat) + 1 : Nat)) (j + 1 - (i + 1))
      rw [ih (b + 1) i]
      have h1 : b + 1 + (i : Int) = b + ((i : Nat) + 1 : Nat) := by push_cast; ring
      have h2 : j - i = j + 1 - (i + 1) := by omega
      rw [h1, h2]

theorem canonSeg_eq_nil_iff (b : Int) (m : Nat) : canonSeg b m = [] ↔ m = 0 := by
  cases m with
  | zero => simp [canonSeg]
  | succ k => simp [canonSeg]

theorem mem_canonSeg (x : Int) : ∀ (m : Nat) (b : Int), b ≤ x → x < b + m → x ∈ canonSeg b m := by
  intro m
  induction m with
  | zero => intro b h1 h2; omega
  | succ k ih =>
    intro b h1 h2
    rcases eq_or_lt_of_le h1 with he | hlt
    · exact he ▸ List.mem_cons_self b _
    · exact List.mem_cons_of_mem b (ih (b + 1) hlt (by push_cast at h2 ⊢; omega))

/-! ### Python slice and enumerate on arithmetic-progression lists -/

theorem pySlice_canonSeg (b : Int) (m : Nat) (x y : Int) (hx : 0 ≤ x) (hy : 0 ≤ y) :
    pySlice (canonSeg b m) x y = canonSeg (b + x) (min y.toNat m - x.toNat) := by
  unfold pySlice pySliceIdx
  rw [canonSeg_length, if_neg (by omega), if_neg (by omega)]
  rw [canonSeg_take, canonSeg_drop]
  have hmin : min (min y.toNat m) m = min y.toNat m := by omega
  rw [hmin]
  by_cases h : x.toNat ≤ m
  · have h1 : b + (min x.toNat m : Nat) = b + x := by
      have : min x.toNat m = x.toNat := by omega
      rw [this, Int.toNat_of_nonneg hx]
    have h2 : min y.toNat m - min x.toNat m = min y.toNat m - x.toNat := by omega
    rw [h1, h2]
  · have h1 : min y.toNat m - min x.toNat m = 0 := by omega
    have h2 : min y.toNat m - x.toNat = 0 := by omega
    rw [h1, h2]
    rfl

theorem pyEnumerate_map (f : α → β) : ∀ (l : List α) (k : Nat),
    pyEnumerate k (l.map f) = (pyEnumerate k l).map (fun p => (p.1, f p.2)) := by
  intro l
  induction l with
  | nil => intro k; rfl
  | cons x xs ih => intro k; simp [pyEnumerate, ih]

theorem pyEnumerate_append : ∀ (l₁ l₂ : List α) (k : Nat),
    pyEnumerate k (l₁ ++ l₂) = pyEnumerate k l₁ ++ pyEnumerate (k + l₁.length) l₂ := by
  intro l₁
  induction l₁ with
  | nil => intro l₂ k; simp [pyEnumerate]
  | cons x xs ih =>
    intro l₂ k
    show (k, x) :: pyEnumerate (k + 1) (xs ++ l₂) = ((k, x) :: pyEnumerate (k + 1) xs) ++ _
    rw [ih l₂ (k + 1), List.cons_append]
    have : k + 1 + xs.length = k + (xs.length + 1) := by omega
    rw [this]
    rfl

theorem pyEnumerate_range : ∀ m : Nat,
    pyEnumerate 0 (List.range m) = (List.range m).map (fun i => (i, i)) := by
  intro m
  induction m with
  | zero => rfl
  | succ k ih =>
    rw [List.range_succ, pyEnumerate_append, ih, List.map_append, List.length_range]
    simp [pyEnumerate]

theorem pyEnumerate_canonSeg_map (F : Int → Int → β) :
    ∀ (cnt : Nat) (k : Nat) (off : Int),
    (pyEnumerate k (canonSeg (off + k) cnt)).map (fun p => F p.2 (off + p.1)) =
      (canonSeg (off + k) cnt).map (fun x => F x x) := by
  intro cnt
  induction cnt with
  | zero => intro k off; rfl
  | succ j ih =>
    intro k off
    show (F (off + k) (off + k)) :: (pyEnumerate (k + 1) (canonSeg (off + k + 1) j)).map _ =
      (F (off + k) (off + k)) :: (canonSeg (off + k + 1) j).map _
    have harg : off + (k : Int) + 1 = off + ((k : Nat) + 1 : Nat) := by push_cast; ring
    rw [harg]
    rw [ih (k + 1) off]

theorem pyIntRange_natCast (m : Nat) :
    pyIntRange (m : Int) = (List.range m).map (fun (i : Nat) => (i : Int)) := by
  unfold pyIntRange
  rw [Int.toNat_natCast]

/-! ### Flatten helpers -/

theorem flatten_map_flatten (g : β → List γ) :
    ∀ L : List (List β),
    (L.map (fun b => (b.map g).flatten)).flatten = ((L.flatten).map g).flatten := by
  intro L
  induction L with
  | nil => rfl
  | cons x xs ih =>
    simp only [List.map_cons, List.flatten_cons, List.map_append, List.flatten_append, ih]

/-! ### The batch partition -/

theorem canonSeg_chunks (bsN : Nat) :
    ∀ (k : Nat) (b : Int) (cnt : Nat), cnt ≤ k * bsN →
    ((List.range k).map
        (fun i => canonSeg (b + ((i * bsN : Nat) : Int)) (min bsN (cnt - i * bsN)))).flatten
      = canonSeg b cnt := by
  intro k
  induction k with
  | zero =>
    intro b cnt hcnt
    have : cnt = 0 := by omega
    simp [this, canonSeg]
  | succ j ih =>
    intro b cnt hcnt
    rw [List.range_succ_eq_map, List.map_cons, List.flatten_cons, List.map_map]
    have hhead : canonSeg (b + ((0 * bsN : Nat) : Int)) (min bsN (cnt - 0 * bsN))
        = canonSeg b (min bsN cnt) := by
      norm_num
    rw [hhead]
    have hrest : (List.range j).map
          ((fun i => canonSeg (b + ((i * bsN : Nat) : Int)) (min bsN (cnt - i * bsN))) ∘ Nat.succ)
        = (List.range j).map
          (fun i => canonSeg ((b + bsN) + ((i * bsN : Nat) : Int)) (min bsN ((cnt - bsN) - i * bsN))) := by
      apply List.map_congr_left
      intro i _
      show canonSeg (b + (((i + 1) * bsN : Nat) : Int)) (min bsN (cnt - (i + 1) * bsN)) = _
      have h1 : (i + 1) * bsN = i * bsN + bsN := Nat.succ_mul i bsN
      have h2 : b + (((i + 1) * bsN : Nat) : Int) = (b + bsN) + ((i * bsN : Nat) : Int) := by
        rw [h1]; push_cast; ring
      have h3 : cnt - (i + 1) * bsN = (cnt - bsN) - i * bsN := by omega
      rw [h2, h3]
    rw [hrest, ih (b + bsN) (cnt - bsN)
      (by have hjs : (j + 1) * bsN = j * bsN + bsN := Nat.succ_mul j bsN; omega)]
    by_cases hc : bsN ≤ cnt
    · have hmin : min bsN cnt = bsN := by omega
      have hcnt2 : cnt = bsN + (cnt - bsN) := by omega
      rw [hmin]
      conv_rhs => rw [hcnt2]
      rw [canonSeg_append]
    · have hmin : min bsN cnt = cnt := by omega
      have h0 : cnt - bsN = 0 := by omega
      rw [hmin, h0]
      simp [canonSeg]

theorem ceil_div_mul_ge (cnt bsN : Nat) (h : 1 ≤ bsN) :
    cnt ≤ ((cnt + bsN - 1) / bsN) * bsN := by
  have hd := Nat.div_add_mod (cnt + bsN - 1) bsN
  have hm : (cnt + bsN - 1) % bsN < bsN := Nat.mod_lt _ (by omega)
  have hc : ((cnt + bsN - 1) / bsN) * bsN = bsN * ((cnt + bsN - 1) / bsN) := Nat.mul_comm _ _
  omega

theorem ceil_div_pos (cnt bsN : Nat) (hc : 1 ≤ cnt) (h : 1 ≤ bsN) :
    1 ≤ (cnt + bsN - 1) / bsN := by
  rw [Nat.le_div_iff_mul_le (by omega)]
  omega

theorem fdiv_natCeil (c bsN : Nat) (h : 1 ≤ bsN) :
    ((c : Int) + (bsN : Int) - 1).fdiv (bsN : Int) = (((c + bsN - 1) / bsN : Nat) : Int) := by
  have h1 : ((c : Int) + bsN - 1) = ((c + bsN - 1 : Nat) : Int) := by omega
  rw [h1, Int.fdiv_eq_ediv _ (by omega), ← Int.ofNat_ediv]

theorem pyEnumerate_canonSeg_map_zero (F : Int → Int → β) (cnt : Nat) (off : Int) :
    (pyEnumerate 0 (canonSeg off cnt)).map (fun p => F p.2 (off + p.1)) =
      (canonSeg off cnt).map (fun x => F x x) := by
  have h := pyEnumerate_canonSeg_map F cnt 0 off
  simpa using h

theorem run_batch_canonSeg (api : Int → Except String String) (s : Int) (cnt bsN i : Nat) :
    run_batch api s (canonSeg s cnt) (bsN : Int) (i : Int) =
      (canonSeg (s + ((i * bsN : Nat) : Int)) (min bsN (cnt - i * bsN)),
       (canonSeg (s + ((i * bsN : Nat) : Int)) (min bsN (cnt - i * bsN))).map
         (fun x => translate_and_convert_to_latex_with_claude_vision api x x),
       ((canonSeg (s + ((i * bsN : Nat) : Int)) (min bsN (cnt - i * bsN))).map
         (fun x => [PipeEvent.call x x, PipeEvent.sleep])).flatten) := by
  unfold run_batch
  have hx : (i : Int) * (bsN : Int) = ((i * bsN : Nat) : Int) := by push_cast; ring
  have hy : min (((i : Int) + 1) * (bsN : Int)) ((canonSeg s cnt).length : Int)
      = ((min ((i + 1) * bsN) cnt : Nat) : Int) := by
    rw [canonSeg_length]; push_cast; ring_nf
  rw [hx, hy]
  dsimp only
  have hsl : pySlice (canonSeg s cnt) ((i * bsN : Nat) : Int) ((min ((i + 1) * bsN) cnt : Nat) : Int)
      = canonSeg (s + ((i * bsN : Nat) : Int)) (min bsN (cnt - i * bsN)) := by
    rw [pySlice_canonSeg s cnt _ _ (by omega) (by omega)]
    congr 1
    have hsm : (i + 1) * bsN = i * bsN + bsN := Nat.succ_mul i bsN
    rw [Int.toNat_natCast, Int.toNat_natCast]
    omega
  rw [hsl]
  simp only [List.map_map, Function.comp_def]
  rw [pyEnumerate_canonSeg_map_zero (fun a b => translate_and_convert_to_latex_with_claude_vision api a b)]
  rw [pyEnumerate_canonSeg_map_zero (fun a b => [PipeEvent.call a b, PipeEvent.sleep])]

theorem canonSeg_chunks_map {γ : Type} (f : Int → γ) (bsN nbN : Nat) (s : Int) (cnt : Nat)
    (hle : cnt ≤ nbN * bsN) :
    ((List.range nbN).map (fun x =>
        (canonSeg (s + ((x * bsN : Nat) : Int)) (min bsN (cnt - x * bsN))).map f)).flatten
      = (canonSeg s cnt).map f := by
  have h1 : (List.range nbN).map (fun x =>
        (canonSeg (s + ((x * bsN : Nat) : Int)) (min bsN (cnt - x * bsN))).map f)
      = ((List.range nbN).map (fun i =>
          canonSeg (s + ((i * bsN : Nat) : Int)) (min bsN (cnt - i * bsN)))).map (List.map f) := by
    rw [List.map_map]; rfl
  rw [h1, ← List.map_flatten, canonSeg_chunks bsN nbN s cnt hle]

theorem canonSeg_chunks_map_flatten {γ : Type} (g : Int → List γ) (bsN nbN : Nat) (s : Int)
    (cnt : Nat) (hle : cnt ≤ nbN * bsN) :
    ((List.range nbN).map (fun x =>
        ((canonSeg (s + ((x * bsN : Nat) : Int)) (min bsN (cnt - x * bsN))).map g).flatten)).flatten
      = ((canonSeg s cnt).map g).flatten := by
  have h1 : (List.range nbN).map (fun x =>
        ((canonSeg (s + ((x * bsN : Nat) : Int)) (min bsN (cnt - x * bsN))).map g).flatten)
      = ((List.range nbN).map (fun i =>
          canonSeg (s + ((i * bsN : Nat) : Int)) (min bsN (cnt - i * bsN)))).map
            (fun b => (b.map g).flatten) := by
    rw [List.map_map]; rfl
  rw [h1, flatten_map_flatten, canonSeg_chunks bsN nbN s cnt hle]

theorem run_canonical_ok (n : Nat) (api : Int → Except String String) (output : String)
    (s e : Int) (e? bs? : Option Int) (bsN cnt nbN : Nat)
    (hs : 0 ≤ s) (hse : s ≤ e) (hen : e < (n : Int))
    (he : (match e? with | some x => x | none => (n : Int) - 1) = e)
    (hbsN : 1 ≤ bsN)
    (hcnt : cnt = (e + 1 - s).toNat)
    (heff : pyOr bs? (cnt : Int) = (bsN : Int))
    (hnb : nbN = (cnt + bsN - 1) / bsN) :
    run (canonSeg 0 n) api output s e? bs? =
      ⟨((canonSeg s cnt).map (fun p => [PipeEvent.call p p, PipeEvent.sleep])).flatten,
       .ok ⟨(nbN : Int),
         (List.range nbN).map
           (fun i => canonSeg (s + ((i * bsN : Nat) : Int)) (min bsN (cnt - i * bsN))),
         (canonSeg s cnt).map (fun p => translate_and_convert_to_latex_with_claude_vision api p p),
         (if 1 < nbN then
            (List.range nbN).map (fun i =>
              (batch_output_name output i,
               combine_latex_pages
                 ((canonSeg (s + ((i * bsN : Nat) : Int)) (min bsN (cnt - i * bsN))).map
                   (fun p => translate_and_convert_to_latex_with_claude_vision api p p))))
          else []),
         (output, combine_latex_pages ((canonSeg s cnt).map
           (fun p => translate_and_convert_to_latex_with_claude_vision api p p)))⟩⟩ := by
  have hn1 : 1 ≤ n := by omega
  have hcnt1 : 1 ≤ cnt := by omega
  have hle : cnt ≤ nbN * bsN := by rw [hnb]; exact ceil_div_mul_ge cnt bsN hbsN
  unfold run
  have hne : (canonSeg 0 n).isEmpty = false := by
    cases n with
    | zero => omega
    | succ k => rfl
  rw [hne]
  simp only [Bool.false_eq_true, if_false]
  simp only [canonSeg_length]
  rw [he]
  rw [if_neg (by omega), if_neg (by omega)]
  have hsel : pySlice (canonSeg 0 n) s (e + 1) = canonSeg s cnt := by
    rw [pySlice_canonSeg 0 n s (e + 1) hs (by omega), zero_add]
    congr 1
    omega
  rw [hsel]
  simp only [canonSeg_length]
  rw [heff]
  rw [fdiv_natCeil cnt bsN hbsN, ← hnb]
  have hbd : (pyIntRange (nbN : Int)).map (run_batch api s (canonSeg s cnt) (bsN : Int))
      = (List.range nbN).map (fun i =>
          (canonSeg (s + ((i * bsN : Nat) : Int)) (min bsN (cnt - i * bsN)),
           (canonSeg (s + ((i * bsN : Nat) : Int)) (min bsN (cnt - i * bsN))).map
             (fun x => translate_and_convert_to_latex_with_claude_vision api x x),
           ((canonSeg (s + ((i * bsN : Nat) : Int)) (min bsN (cnt - i * bsN))).map
             (fun x => [PipeEvent.call x x, PipeEvent.sleep])).flatten)) := by
    rw [pyIntRange_natCast, List.map_map]
    exact List.map_congr_left (fun i _ => run_batch_canonSeg api s cnt bsN i)
  rw [hbd]
  simp only [List.map_map, Function.comp_def]
  simp only [RunResult.mk.injEq, RunOutput.mk.injEq, Except.ok.injEq]
  refine ⟨?_, trivial, trivial, ?_, ?_, ?_⟩
  · exact canonSeg_chunks_map_flatten _ bsN nbN s cnt hle
  · exact canonSeg_chunks_map _ bsN nbN s cnt hle
  · simp only [Nat.one_lt_cast]
    by_cases h : 1 < nbN
    · rw [if_pos h, if_pos h, pyEnumerate_map, pyEnumerate_range]
      simp only [List.map_map]
      exact List.map_congr_left (fun i _ => rfl)
    · rw [if_neg h, if_neg h]
  · rw [canonSeg_chunks_map _ bsN nbN s cnt hle]

/-! ### Pairing of call and sleep events -/

theorem EventsPaired_nil : EventsPaired [] := ⟨[], rfl⟩

theorem EventsPaired_flatten :
    ∀ L : List (List PipeEvent), (∀ x ∈ L, EventsPaired x) → EventsPaired L.flatten := by
  intro L
  induction L with
  | nil => intro _; exact EventsPaired_nil
  | cons x xs ih =>
    intro h
    obtain ⟨ps, hps⟩ := h x (List.mem_cons_self x xs)
    obtain ⟨qs, hqs⟩ := ih (fun y hy => h y (List.mem_cons_of_mem x hy))
    exact ⟨ps ++ qs, by rw [List.flatten_cons, hps, hqs, List.map_append, List.flatten_append]⟩

theorem run_batch_events_paired (api : Int → Except String String) (s : Int)
    (sel : List Int) (bs idx : Int) : EventsPaired (run_batch api s sel bs idx).2.2 := by
  unfold run_batch
  refine ⟨(pyEnumerate 0 (pySlice sel (idx * bs) (min ((idx + 1) * bs) (sel.length : Int)))).map
    (fun p => (p.2, s + idx * bs + p.1)), ?_⟩
  simp only [List.map_map]
  rfl

theorem run_events_paired (images : List Int) (api : Int → Except String String)
    (output : String) (s : Int) (e? bs? : Option Int) :
    EventsPaired (run images api output s e? bs?).events := by
  cases e? with
  | none =>
    unfold run
    dsimp only
    split
    · exact EventsPaired_nil
    split
    · exact EventsPaired_nil
    split
    · exact EventsPaired_nil
    apply EventsPaired_flatten
    intro x hx
    obtain ⟨b, hb, rfl⟩ := List.mem_map.mp hx
    obtain ⟨idx, _, rfl⟩ := List.mem_map.mp hb
    exact run_batch_events_paired api s _ _ idx
  | some ep =>
    unfold run
    dsimp only
    split
    · exact EventsPaired_nil
    split
    · exact EventsPaired_nil
    split
    · exact EventsPaired_nil
    apply EventsPaired_flatten
    intro x hx
    obtain ⟨b, hb, rfl⟩ := List.mem_map.mp hx
    obtain ⟨idx, _, rfl⟩ := List.mem_map.mp hb
    exact run_batch_events_paired api s _ _ idx

theorem EventsPaired_call_then_sleep :
    ∀ (l : List PipeEvent), EventsPaired l →
    ∀ (i : Nat) (k p : Int), l[i]? = some (PipeEvent.call k p) →
      l[i + 1]? = some PipeEvent.sleep := by
  intro l hl
  obtain ⟨ps, rfl⟩ := hl
  induction ps with
  | nil => intro i k p h; simp at h
  | cons q qs ih =>
    intro i k p h
    simp only [List.map_cons, List.flatten_cons, List.cons_append, List.nil_append] at h ⊢
    match i with
    | 0 => simp [List.getElem?_cons_succ, List.getElem?_cons_zero]
    | 1 => simp [List.getElem?_cons_succ, List.getElem?_cons_zero] at h
    | j + 2 =>
      rw [List.getElem?_cons_succ, List.getElem?_cons_succ] at h ⊢
      exact ih j k p h

/-! ### Failure propagation in the renderer -/

theorem render_pages_error (raster : Nat → Except String Unit) :
    ∀ l : List Nat, (∃ k ∈ l, ∃ m, raster k = .error m) →
    ∃ m', render_pages raster l = .error m' := by
  intro l
  induction l with
  | nil => rintro ⟨k, hk, _⟩; cases hk
  | cons x xs ih =>
    rintro ⟨k, hk, m, hm⟩
    cases hr : raster x with
    | error e => exact ⟨e, by simp [render_pages, hr]⟩
    | ok u =>
      have hks : k ∈ xs := by
        rcases List.mem_cons.mp hk with rfl | h
        · rw [hr] at hm; cases hm
        · exact h
      obtain ⟨m', hm'⟩ := ih ⟨k, hks, m, hm⟩
      exact ⟨m', by simp [render_pages, hr, hm']⟩

theorem extract_pages_fail_empty (doc? : Except String Nat) (raster : Nat → Except String Unit)
    (h : (∃ m, doc? = .error m) ∨ ∃ n, doc? = .ok n ∧ ∃ k, k < n ∧ ∃ m, raster k = .error m) :
    extract_pages_as_images doc? raster = [] := by
  rcases h with ⟨m, hm⟩ | ⟨n, hn, k, hk, m, hm⟩
  · rw [hm]; rfl
  · obtain ⟨m', hm'⟩ := render_pages_error raster (List.range n)
      ⟨k, List.mem_range.mpr hk, m, hm⟩
    rw [hn]
    simp [extract_pages_as_images, hm']

/-! ### Splitting a joined string at a member -/

theorem pyJoin_mem_split (sep : String) :
    ∀ (l : List String) (x : String), x ∈ l → ∃ a b, pyJoin sep l = a ++ x ++ b := by
  intro l
  induction l with
  | nil => intro x hx; cases hx
  | cons y ys ih =>
    intro x hx
    cases ys with
    | nil =>
      rcases List.mem_cons.mp hx with rfl | h
      · exact ⟨"", "", by simp [pyJoin]⟩
      · cases h
    | cons z zs =>
      rcases List.mem_cons.mp hx with rfl | h
      · exact ⟨"", sep ++ pyJoin sep (z :: zs), by simp [pyJoin, String.append_assoc]⟩
      · obtain ⟨a, b, hab⟩ := ih x h
        exact ⟨y ++ sep ++ a, b, by simp [pyJoin, hab, String.append_assoc]⟩

/-! ### Claim theorems -/

/-- C5: for every ordered sequence of fragments, `combine_latex_pages`
returns exactly the fixed preamble, the fragments joined by the literal
page-separator comment, and the fixed postamble; every fragment appears
verbatim (unescaped, unmodified) in the output. -/
theorem assembler_exact_output (frags : List String) :
    combine_latex_pages frags =
      specPreamble ++ pyJoin specPageSeparator frags ++ specPostamble ∧
    ∀ f ∈ frags, ∃ a b, combine_latex_pages frags = a ++ f ++ b := by
  constructor
  · rfl
  · intro f hf
    obtain ⟨a, b, hab⟩ := pyJoin_mem_split specPageSeparator frags f hf
    refine ⟨specPreamble ++ a, b ++ specPostamble, ?_⟩
    show specPreamble ++ pyJoin specPageSeparator frags ++ specPostamble = _
    rw [hab]
    simp only [String.append_assoc]

/-- C5 witness: the assembler contract evaluated on the concrete
fragment list `["A", "B"]`. -/
theorem assembler_exact_output_witness :
    combine_latex_pages ["A", "B"] =
      specPreamble ++ pyJoin specPageSeparator ["A", "B"] ++ specPostamble ∧
    ∃ a b, combine_latex_pages ["A", "B"] = a ++ "A" ++ b :=
  ⟨(assembler_exact_output ["A", "B"]).1,
   (assembler_exact_output ["A", "B"]).2 "A" (by simp)⟩

/-- C6: the document assembled from `[A, B]` with its postamble removed
is a strict prefix of the document assembled from `[A, B, C]`; the two
outputs agree exactly up to the separator preceding `C`. -/
theorem assembler_extension_strict (A B C : String) :
    ∃ stem, combine_latex_pages [A, B] = stem ++ specPostamble ∧
      combine_latex_pages [A, B, C] = stem ++ (specPageSeparator ++ (C ++ specPostamble)) ∧
      0 < (specPageSeparator ++ (C ++ specPostamble)).length := by
  refine ⟨specPreamble ++ (A ++ (specPageSeparator ++ B)), ?_, ?_, ?_⟩
  · show specPreamble ++ (A ++ specPageSeparator ++ B) ++ specPostamble = _
    simp only [String.append_assoc]
  · show specPreamble ++ (A ++ specPageSeparator ++ (B ++ specPageSeparator ++ C)) ++
        specPostamble = _
    simp only [String.append_assoc]
  · have hsep : 0 < specPageSeparator.length := by decide
    rw [String.length_append, String.length_append]
    omega

/-- C2: with a nonempty image list, any violation of the page-range
contract (start > end, or either bound outside `[0, pageCount-1]`) makes
the pipeline exit with one of the two range errors, with an empty event
trace: no transcription call and no sleep is ever issued. -/
theorem invalid_range_aborts_before_calls (images : List Int)
    (api : Int → Except String String) (output : String) (s e : Int) (bs? : Option Int)
    (hne : images ≠ [])
    (hbad : e < s ∨ s < 0 ∨ (images.length : Int) ≤ s ∨ e < 0 ∨ (images.length : Int) ≤ e) :
    (run images api output s (some e) bs?).events = [] ∧
    ((run images api output s (some e) bs?).result = .error .startPageOutOfRange ∨
     (run images api output s (some e) bs?).result = .error .endPageOutOfRange) := by
  unfold run
  rw [if_neg (by simpa using hne)]
  dsimp only
  by_cases h1 : s < 0 ∨ (images.length : Int) ≤ s
  · rw [if_pos h1]
    exact ⟨rfl, Or.inl rfl⟩
  · rw [if_neg h1, if_pos (by omega)]
    exact ⟨rfl, Or.inr rfl⟩

/-- C2 witness: a 2-page document with `start-page = 5` aborts with a
range error and an empty event trace. -/
theorem invalid_range_aborts_before_calls_witness :
    (run [0, 1] (fun _ => Except.ok "x") "o.tex" 5 (some 0) none).events = [] ∧
    ((run [0, 1] (fun _ => Except.ok "x") "o.tex" 5 (some 0) none).result =
        .error .startPageOutOfRange ∨
     (run [0, 1] (fun _ => Except.ok "x") "o.tex" 5 (some 0) none).result =
        .error .endPageOutOfRange) :=
  invalid_range_aborts_before_calls [0, 1] (fun _ => Except.ok "x") "o.tex" 5 0 none
    (by decide) (by norm_num)

/-- C9: in every run, every remote transcription call event is
immediately followed by a sleep event of one time unit; in particular at
least one sleep separates any two consecutive call events, and the pause
follows every processed page. -/
theorem sleep_follows_every_call (images : List Int) (api : Int → Except String String)
    (output : String) (s : Int) (e? bs? : Option Int) (i : Nat) (k p : Int)
    (hcall : (run images api output s e? bs?).events[i]? = some (PipeEvent.call k p)) :
    (run images api output s e? bs?).events[i + 1]? = some PipeEvent.sleep :=
  EventsPaired_call_then_sleep _ (run_events_paired images api output s e? bs?) i k p hcall

/-- C9 witness: in a 1-page run the call event at index 0 is followed by
a sleep at index 1. -/
theorem sleep_follows_every_call_witness :
    (run [0] (fun _ => Except.ok "x") "o.tex" 0 none none).events[0]? =
      some (PipeEvent.call 0 0) ∧
    (run [0] (fun _ => Except.ok "x") "o.tex" 0 none none).events[0 + 1]? =
      some PipeEvent.sleep :=
  ⟨rfl, sleep_follows_every_call [0] (fun _ => Except.ok "x") "o.tex" 0 none none 0 0 0 rfl⟩

/-- C8: if the renderer fails to open the document or to rasterise any
page, it returns the empty sequence (never a partial one), and the
pipeline then exits with the render error before doing anything. -/
theorem render_failure_returns_empty_and_aborts (doc? : Except String Nat)
    (raster : Nat → Except String Unit)
    (h : (∃ m, doc? = .error m) ∨ ∃ n, doc? = .ok n ∧ ∃ k, k < n ∧ ∃ m, raster k = .error m) :
    extract_pages_as_images doc? raster = [] ∧
    ∀ (api : Int → Except String String) (output : String) (s : Int) (e? bs? : Option Int),
      run (extract_pages_as_images doc? raster) api output s e? bs? =
        ⟨[], .error .renderFailed⟩ := by
  have he := extract_pages_fail_empty doc? raster h
  exact ⟨he, fun api output s e? bs? => by rw [he]; rfl⟩

/-- C8 witness: a 2-page document whose second page fails to rasterise
yields an empty image list and an aborted run. -/
theorem render_failure_returns_empty_and_aborts_witness :
    extract_pages_as_images (Except.ok 2)
        (fun k => if k = 1 then Except.error "boom" else Except.ok ()) = [] ∧
    ∀ (api : Int → Except String String) (output : String) (s : Int) (e? bs? : Option Int),
      run (extract_pages_as_images (Except.ok 2)
          (fun k => if k = 1 then Except.error "boom" else Except.ok ())) api output s e? bs? =
        ⟨[], .error .renderFailed⟩ :=
  render_failure_returns_empty_and_aborts (Except.ok 2)
    (fun k => if k = 1 then Except.error "boom" else Except.ok ())
    (Or.inr ⟨2, rfl, 1, by omega, "boom", rfl⟩)

/-- The effective batch size of a run: `None` and `0` are coerced by the
truthiness-based `or` to the selected-range length; a positive value is
kept.  In all these cases the result is a positive natural number. -/
theorem effective_batch_size (bs? : Option Int) (cnt : Nat) (hcnt : 1 ≤ cnt)
    (hbs : bs? = none ∨ ∃ b : Int, bs? = some b ∧ 0 ≤ b) :
    ∃ bsN : Nat, 1 ≤ bsN ∧ pyOr bs? (cnt : Int) = (bsN : Int) := by
  rcases hbs with rfl | ⟨b, rfl, hb0⟩
  · exact ⟨cnt, hcnt, rfl⟩
  · by_cases hb : b = 0
    · subst hb
      exact ⟨cnt, hcnt, by simp [pyOr]⟩
    · lift b to Nat using hb0 with bN
      refine ⟨bN, by omega, ?_⟩
      simp [pyOr, hb]

/-- C1 (amended): for every valid page range `[s, e]` and every
`--batch-size` that is omitted or nonnegative, the run succeeds, its
fragment list is exactly the per-page fragments of pages `s..e` in
ascending page order, its length is `e - s + 1`, and the final file is
the assembly of that list. -/
theorem final_document_fragments (n : Nat) (api : Int → Except String String)
    (output : String) (s e : Int) (bs? : Option Int)
    (hs : 0 ≤ s) (hse : s ≤ e) (hen : e < (n : Int))
    (hbs : bs? = none ∨ ∃ b : Int, bs? = some b ∧ 0 ≤ b) :
    ∃ out, (run (canonSeg 0 n) api output s (some e) bs?).result = Except.ok out ∧
      out.all_latex_pages = (canonSeg s (e + 1 - s).toNat).map
        (fun p => translate_and_convert_to_latex_with_claude_vision api p p) ∧
      out.all_latex_pages.length = (e + 1 - s).toNat ∧
      out.finalFile = (output, combine_latex_pages out.all_latex_pages) := by
  have hcnt1 : 1 ≤ (e + 1 - s).toNat := by omega
  obtain ⟨bsN, hbsN, heff⟩ := effective_batch_size bs? _ hcnt1 hbs
  have h := run_canonical_ok n api output s e (some e) bs? bsN ((e + 1 - s).toNat)
    (((e + 1 - s).toNat + bsN - 1) / bsN) hs hse hen rfl hbsN rfl heff rfl
  rw [h]
  refine ⟨_, rfl, rfl, ?_, rfl⟩
  rw [List.length_map, canonSeg_length]

/-- C1 witness: a 2-page document, full range, batch size omitted. -/
theorem final_document_fragments_witness :
    ∃ out, (run (canonSeg 0 2) (fun _ => Except.ok "x") "o.tex" 0 (some 1) none).result =
        Except.ok out ∧
      out.all_latex_pages = (canonSeg 0 ((1 : Int) + 1 - 0).toNat).map
        (fun p => translate_and_convert_to_latex_with_claude_vision (fun _ => Except.ok "x") p p) ∧
      out.all_latex_pages.length = ((1 : Int) + 1 - 0).toNat ∧
      out.finalFile = ("o.tex", combine_latex_pages out.all_latex_pages) :=
  final_document_fragments 2 (fun _ => Except.ok "x") "o.tex" 0 1 none (by decide) (by decide)
    (by decide) (Or.inl rfl)

/-- C1 counterexample: with the negative batch size `-1` (accepted by
the CLI), a valid 1-page range produces zero fragments instead of one,
because `num_batches` floor-divides to `1` but the batch slice
`selected[0:-1]` is empty. -/
theorem final_document_fragments_counterexample :
    (run [0] (fun _ => Except.ok "P") "o.tex" 0 (some 0) (some (-1))).result.map
        (fun o => o.all_latex_pages) = Except.ok ([] : List String) ∧
    (([] : List String).length = 0 ∧ ((0 : Int) + 1 - 0).toNat = 1) :=
  ⟨rfl, rfl, rfl⟩

/-- C4 (amended): for every valid page range and every omitted or
nonnegative `--batch-size`, concatenating the batches in batch order
yields exactly the selected page range: exhaustive, non-overlapping, in
order. -/
theorem batch_partition_exact (n : Nat) (api : Int → Except String String)
    (output : String) (s e : Int) (bs? : Option Int)
    (hs : 0 ≤ s) (hse : s ≤ e) (hen : e < (n : Int))
    (hbs : bs? = none ∨ ∃ b : Int, bs? = some b ∧ 0 ≤ b) :
    ∃ out, (run (canonSeg 0 n) api output s (some e) bs?).result = Except.ok out ∧
      out.batches.flatten = pySlice (canonSeg 0 n) s (e + 1) ∧
      out.batches.flatten = canonSeg s (e + 1 - s).toNat := by
  have hcnt1 : 1 ≤ (e + 1 - s).toNat := by omega
  obtain ⟨bsN, hbsN, heff⟩ := effective_batch_size bs? _ hcnt1 hbs
  have h := run_canonical_ok n api output s e (some e) bs? bsN ((e + 1 - s).toNat)
    (((e + 1 - s).toNat + bsN - 1) / bsN) hs hse hen rfl hbsN rfl heff rfl
  rw [h]
  have hle : (e + 1 - s).toNat ≤ (((e + 1 - s).toNat + bsN - 1) / bsN) * bsN :=
    ceil_div_mul_ge _ bsN hbsN
  have hflat := canonSeg_chunks bsN (((e + 1 - s).toNat + bsN - 1) / bsN) s
    ((e + 1 - s).toNat) hle
  refine ⟨_, rfl, ?_, ?_⟩
  · show ((List.range _).map _).flatten = _
    rw [hflat, pySlice_canonSeg 0 n s (e + 1) hs (by omega), zero_add]
    congr 1
    omega
  · exact hflat

/-- C4 witness: 3 pages, range `[0, 2]`, batch size 2. -/
theorem batch_partition_exact_witness :
    ∃ out, (run (canonSeg 0 3) (fun _ => Except.ok "x") "o.tex" 0 (some 2) (some 2)).result =
        Except.ok out ∧
      out.batches.flatten = pySlice (canonSeg 0 3) 0 ((2 : Int) + 1) ∧
      out.batches.flatten = canonSeg 0 ((2 : Int) + 1 - 0).toNat :=
  batch_partition_exact 3 (fun _ => Except.ok "x") "o.tex" 0 2 (some 2) (by decide) (by decide)
    (by decide) (Or.inr ⟨2, rfl, by decide⟩)

/-- C4 counterexample: with batch size `-1` and a valid 2-page range,
`num_batches` floor-divides to `0`, so there are no batches at all and
their concatenation misses the whole selected range `[0, 1]`. -/
theorem batch_partition_exact_counterexample :
    (run [0, 1] (fun _ => Except.ok "P") "o.tex" 0 (some 1) (some (-1))).result.map
        (fun o => o.batches) = Except.ok ([] : List (List Int)) ∧
    canonSeg 0 ((1 : Int) + 1 - 0).toNat = [0, 1] ∧
    ([] : List (List Int)).flatten ≠ [0, 1] :=
  ⟨rfl, by decide, by decide⟩

/-- C3: when the transcription call for page `k` raises, the function
returns (instead of raising) the literal error-comment fragment carrying
the 1-based page number `k+1` and the exception message — in particular
the fragment contains the substring `"Error processing page "` followed
by `k+1` — and the run still succeeds, with every page of the range
(in particular every page after `k`) still processed. -/
theorem transcription_failure_graceful (n : Nat) (api : Int → Except String String)
    (output : String) (s e k : Int) (bs? : Option Int) (msg : String)
    (hs : 0 ≤ s) (hsk : s ≤ k) (hke : k ≤ e) (hen : e < (n : Int))
    (hbs : bs? = none ∨ ∃ b : Int, bs? = some b ∧ 0 ≤ b)
    (hapi : api k = Except.error msg) :
    translate_and_convert_to_latex_with_claude_vision api k k =
      "% Error processing page " ++ toString (k + 1) ++ "\n% " ++ msg ++ "\n\n" ∧
    (∃ a b, translate_and_convert_to_latex_with_claude_vision api k k =
      a ++ ("Error processing page " ++ toString (k + 1)) ++ b) ∧
    (∃ out, (run (canonSeg 0 n) api output s (some e) bs?).result = Except.ok out ∧
      out.all_latex_pages = (canonSeg s (e + 1 - s).toNat).map
        (fun p => translate_and_convert_to_latex_with_claude_vision api p p)) ∧
    ∀ p : Int, k < p → p ≤ e →
      PipeEvent.call p p ∈ (run (canonSeg 0 n) api output s (some e) bs?).events := by
  have hcnt1 : 1 ≤ (e + 1 - s).toNat := by omega
  obtain ⟨bsN, hbsN, heff⟩ := effective_batch_size bs? _ hcnt1 hbs
  have h := run_canonical_ok n api output s e (some e) bs? bsN ((e + 1 - s).toNat)
    (((e + 1 - s).toNat + bsN - 1) / bsN) hs (by omega) hen rfl hbsN rfl heff rfl
  have h1 : translate_and_convert_to_latex_with_claude_vision api k k =
      "% Error processing page " ++ toString (k + 1) ++ "\n% " ++ msg ++ "\n\n" := by
    unfold translate_and_convert_to_latex_with_claude_vision
    rw [hapi]
  rw [h]
  refine ⟨h1, ⟨"% ", "\n% " ++ msg ++ "\n\n", ?_⟩, ⟨_, rfl, rfl⟩, ?_⟩
  · rw [h1, show "% Error processing page " = "% " ++ "Error processing page " from rfl]
    simp only [String.append_assoc]
  · intro p hkp hpe
    dsimp only
    refine List.mem_flatten.mpr ⟨[PipeEvent.call p p, PipeEvent.sleep], ?_, by simp⟩
    refine List.mem_map.mpr ⟨p, ?_, rfl⟩
    exact mem_canonSeg p _ s (by omega) (by omega)

/-- C7: with an explicit positive batch size yielding more than one
batch, the run writes one intermediate file per batch, named with the
1-based batch index suffix, containing exactly that batch's fragments
assembled as a complete document, while the final file assembles all
fragments in ascending page order. -/
theorem multi_batch_intermediate_files (n : Nat) (api : Int → Except String String)
    (output : String) (s e : Int) (bN : Nat)
    (hs : 0 ≤ s) (hse : s ≤ e) (hen : e < (n : Int)) (hbN : 1 ≤ bN)
    (hmulti : 1 < ((e + 1 - s).toNat + bN - 1) / bN) :
    ∃ out, (run (canonSeg 0 n) api output s (some e) (some (bN : Int))).result =
        Except.ok out ∧
      out.numBatches = ((((e + 1 - s).toNat + bN - 1) / bN : Nat) : Int) ∧
      out.batchFiles = (List.range (((e + 1 - s).toNat + bN - 1) / bN)).map (fun i =>
        (batch_output_name output i,
         combine_latex_pages ((canonSeg (s + ((i * bN : Nat) : Int))
             (min bN ((e + 1 - s).toNat - i * bN))).map
           (fun p => translate_and_convert_to_latex_with_claude_vision api p p)))) ∧
      out.all_latex_pages = (canonSeg s (e + 1 - s).toNat).map
        (fun p => translate_and_convert_to_latex_with_claude_vision api p p) ∧
      out.finalFile = (output, combine_latex_pages out.all_latex_pages) := by
  have heff : pyOr (some (bN : Int)) (((e + 1 - s).toNat : Nat) : Int) = (bN : Int) := by
    have hbZ : ¬((bN : Int) = 0) := by omega
    simp [pyOr, hbZ]
  have h := run_canonical_ok n api output s e (some e) (some (bN : Int)) bN ((e + 1 - s).toNat)
    (((e + 1 - s).toNat + bN - 1) / bN) hs hse hen rfl hbN rfl heff rfl
  rw [h]
  refine ⟨_, rfl, rfl, ?_, rfl, rfl⟩
  rw [if_pos hmulti]

/-- C10: supplying `--batch-size 0` behaves exactly like omitting the
option — the truthiness-based `or` coerces `0` to the selected-range
length — and on a valid range this produces a single batch and no
intermediate files. -/
theorem batch_size_zero_single_batch (n : Nat) (api : Int → Except String String)
    (output : String) (s e : Int)
    (hs : 0 ≤ s) (hse : s ≤ e) (hen : e < (n : Int)) :
    (∀ (images : List Int) (e? : Option Int),
        run images api output s e? (some 0) = run images api output s e? none) ∧
    ∃ out, (run (canonSeg 0 n) api output s (some e) (some 0)).result = Except.ok out ∧
      out.numBatches = 1 ∧ out.batchFiles = [] := by
  constructor
  · intro images e?
    rfl
  · have hcnt1 : 1 ≤ (e + 1 - s).toNat := by omega
    have heff : pyOr (some 0) (((e + 1 - s).toNat : Nat) : Int) =
        (((e + 1 - s).toNat : Nat) : Int) := by simp [pyOr]
    have h := run_canonical_ok n api output s e (some e) (some 0) ((e + 1 - s).toNat)
      ((e + 1 - s).toNat)
      (((e + 1 - s).toNat + (e + 1 - s).toNat - 1) / (e + 1 - s).toNat)
      hs hse hen rfl hcnt1 rfl heff rfl
    rw [h]
    have hnb1 : ((e + 1 - s).toNat + (e + 1 - s).toNat - 1) / (e + 1 - s).toNat = 1 := by
      apply Nat.div_eq_of_lt_le <;> omega
    refine ⟨_, rfl, ?_, ?_⟩
    · rw [hnb1]
      rfl
    · rw [hnb1, if_neg (by omega)]

/-- C3 witness: a 3-page run in which page 1 fails with message
`"boom"`: the fragment is the error comment with the 1-based number 2,
and page 2 is still processed. -/
theorem transcription_failure_graceful_witness :
    translate_and_convert_to_latex_with_claude_vision
        (fun p => if p = 1 then Except.error "boom" else Except.ok "x") 1 1 =
      "% Error processing page " ++ toString ((1 : Int) + 1) ++ "\n% " ++ "boom" ++ "\n\n" ∧
    (∃ a b, translate_and_convert_to_latex_with_claude_vision
        (fun p => if p = 1 then Except.error "boom" else Except.ok "x") 1 1 =
      a ++ ("Error processing page " ++ toString ((1 : Int) + 1)) ++ b) ∧
    (∃ out, (run (canonSeg 0 3) (fun p => if p = 1 then Except.error "boom" else Except.ok "x")
          "o.tex" 0 (some 2) none).result = Except.ok out ∧
      out.all_latex_pages = (canonSeg 0 ((2 : Int) + 1 - 0).toNat).map
        (fun p => translate_and_convert_to_latex_with_claude_vision
          (fun p => if p = 1 then Except.error "boom" else Except.ok "x") p p)) ∧
    ∀ p : Int, 1 < p → p ≤ 2 →
      PipeEvent.call p p ∈ (run (canonSeg 0 3)
        (fun p => if p = 1 then Except.error "boom" else Except.ok "x")
        "o.tex" 0 (some 2) none).events :=
  transcription_failure_graceful 3 (fun p => if p = 1 then Except.error "boom" else Except.ok "x")
    "o.tex" 0 2 1 none "boom" (by decide) (by decide) (by decide) (by decide) (Or.inl rfl) rfl

/-- C7 witness: 3 pages, range `[0, 2]`, batch size 2: two batches, two
intermediate files, final file with the three fragments in order. -/
theorem multi_batch_intermediate_files_witness :
    ∃ out, (run (canonSeg 0 3) (fun p => Except.ok (toString p)) "doc.tex" 0 (some 2)
        (some ((2 : Nat) : Int))).result = Except.ok out ∧
      out.numBatches = (((((2 : Int) + 1 - 0).toNat + 2 - 1) / 2 : Nat) : Int) ∧
      out.batchFiles = (List.range ((((2 : Int) + 1 - 0).toNat + 2 - 1) / 2)).map (fun i =>
        (batch_output_name "doc.tex" i,
         combine_latex_pages ((canonSeg (0 + ((i * 2 : Nat) : Int))
             (min 2 (((2 : Int) + 1 - 0).toNat - i * 2))).map
           (fun p => translate_and_convert_to_latex_with_claude_vision
             (fun p => Except.ok (toString p)) p p)))) ∧
      out.all_latex_pages = (canonSeg 0 ((2 : Int) + 1 - 0).toNat).map
        (fun p => translate_and_convert_to_latex_with_claude_vision
          (fun p => Except.ok (toString p)) p p) ∧
      out.finalFile = ("doc.tex", combine_latex_pages out.all_latex_pages) :=
  multi_batch_intermediate_files 3 (fun p => Except.ok (toString p)) "doc.tex" 0 2 2
    (by decide) (by decide) (by decide) (by decide) (by decide)

/-- C10 witness: 2 pages, full range, `--batch-size 0`. -/
theorem batch_size_zero_single_batch_witness :
    (∀ (images : List Int) (e? : Option Int),
        run images (fun _ => Except.ok "x") "o.tex" 0 e? (some 0) =
          run images (fun _ => Except.ok "x") "o.tex" 0 e? none) ∧
    ∃ out, (run (canonSeg 0 2) (fun _ => Except.ok "x") "o.tex" 0 (some 1)
        (some 0)).result = Except.ok out ∧
      out.numBatches = 1 ∧ out.batchFiles = [] :=
  batch_size_zero_single_batch 2 (fun _ => Except.ok "x") "o.tex" 0 1
    (by decide) (by decide) (by decide)
